import Mathlib

/-
Verification of the column-transform pipeline shared by the scripts in this
repository (simple_code.py, code_with_solid.py and the solid_principles/
variants).  Every script loads a table, applies up to three feature
transforms (z-score standardization of "feature_a", label-encoding of
"feature_b", NaN-filling of "feature_c") and writes the assembled result.

The embedding below models:
 - numeric series and np.mean / np.std / the z-score expression
   (single_responsibility_1.normalize_feature, Standardizer.process_data);
 - sklearn's LabelEncoder.fit_transform, whose vocabulary is np.unique of
   the column, i.e. the distinct values in sorted (code-point
   lexicographic) order, each row mapped to the index of its value
   (single_responsibility_1.encode_feature, Encoder.process_data);
 - Series.fillna (single_responsibility_1.fill_feature,
   NanFiller.process_data);
 - a table as an ordered association list from column name to column, with
   pandas-style column read (first matching name) and column write
   (overwrite in place if present, append otherwise);
 - the step-threading pipelines (open_close.process,
   dependency_aversion.process_data, liskov_substitution.process_data,
   single_responsibility.process_data), which fold `df = step.apply(df)`
   over the configured steps and save only after all steps succeed;
 - the concat pipeline of code_with_solid.DataPipeline.process, which
   appends each processor's returned named series to the accumulating
   frame with pd.concat(axis=1);
 - the zip-assembly of single_responsibility_1.process / compose_df.

Machine floats are modeled as exact reals; where the float/real divergence
matters (division by a zero standard deviation produces a non-finite
value) a dedicated model makes the non-finite outcome explicit.
-/

/-- Population mean, as computed by np.mean over a numeric series. -/
noncomputable def mean (xs : List ℝ) : ℝ := xs.sum / xs.length

/-- Population variance (np.std squares this; np.std uses ddof = 0). -/
noncomputable def var (xs : List ℝ) : ℝ :=
  (xs.map (fun x => (x - mean xs) ^ 2)).sum / xs.length

/-- Population standard deviation, as computed by np.std. -/
noncomputable def std (xs : List ℝ) : ℝ := Real.sqrt (var xs)

/-- The z-score expression `(feature - mean) / std` of
single_responsibility_1.normalize_feature and Standardizer.process_data,
in exact real arithmetic (the defined case, std ≠ 0). -/
noncomputable def normalize_feature (xs : List ℝ) : List ℝ :=
  xs.map (fun x => (x - mean xs) / std xs)

/-- Float division: a zero divisor yields a non-finite value (0/0 = NaN,
±x/0 = ±Inf), modeled as `none`. -/
noncomputable def fdivOpt (a b : ℝ) : Option ℝ :=
  if b = 0 then none else some (a / b)

/-- The z-score expression again, but with float division semantics made
explicit, so that the σ = 0 behavior of the source is visible: every
entry of a constant column becomes 0/0 = NaN (`none`). -/
noncomputable def standardizeFloat (xs : List ℝ) : List (Option ℝ) :=
  xs.map (fun x => fdivOpt (x - mean xs) (std xs))

/-- Code-point lexicographic order on character lists; np.unique sorts
string arrays in exactly this order.  (The kernel cannot reduce core's
String.ltb, so the comparison is spelled out on the underlying data.) -/
def charListLe : List Char → List Char → Bool
  | [], _ => true
  | _ :: _, [] => false
  | a :: as, b :: bs =>
    if a.toNat < b.toNat then true
    else if b.toNat < a.toNat then false
    else charListLe as bs

/-- Code-point lexicographic order on strings. -/
def strLe (a b : String) : Bool := charListLe a.data b.data

/-- The Category Vocabulary that LabelEncoder.fit builds: np.unique of the
column, i.e. its distinct values in sorted order. -/
def vocab (l : List String) : List String :=
  l.dedup.insertionSort (fun a b => strLe a b = true)

/-- LabelEncoder.fit_transform from single_responsibility_1.encode_feature
and Encoder.process_data: each row is mapped to the index of its value in
the sorted vocabulary. -/
def encode_feature (l : List String) : List Nat :=
  l.map (fun v => (vocab l).indexOf v)

/-- Series.fillna from single_responsibility_1.fill_feature and
NanFiller.process_data: missing entries (`none`) are replaced by the fill
value, present entries pass through.  The fill value is itself an Option
so that a NaN fill value (which pandas leaves as missing) is expressible. -/
def fill_feature (c : List (Option ℚ)) (v : Option ℚ) : List (Option ℚ) :=
  c.map (fun e => match e with | none => v | some x => some x)

/-- A cell of a pandas column: a float, a string, or NaN. -/
inductive Val where
  | num (x : ℝ)
  | str (s : String)
  | nan

/-- A column is the ordered list of its cells. -/
abbrev Col := List Val

/-- A DataFrame: an ordered association list from column name to column
(pandas permits duplicate names; reads return the first match). -/
abbrev Table := List (String × Col)

/-- Whether a cell is NaN. -/
def Val.isNan : Val → Bool
  | .nan => true
  | _ => false

/-- The float entries of a column. -/
def valNums (c : Col) : List ℝ :=
  c.filterMap (fun v => match v with | .num x => some x | _ => none)

/-- The string entries of a column. -/
def valStrs (c : Col) : List String :=
  c.filterMap (fun v => match v with | .str s => some s | _ => none)

/-- Column read `df[name]`: the first column with the given name. -/
def getCol (t : Table) (n : String) : Option Col := t.lookup n

/-- df.columns. -/
def colNames (t : Table) : List String := t.map Prod.fst

/-- Column write `df[name] = col`: overwrite in place when the name is
present, append a new column at the end otherwise. -/
def setCol (t : Table) (n : String) (c : Col) : Table :=
  if t.any (fun p => p.1 == n) then
    t.map (fun p => if p.1 == n then (n, c) else p)
  else t ++ [(n, c)]

/-- The z-score transform on a table column
(NormalizeFeature.apply / NormalizeFeature.process in the step variants).
np.mean and np.std propagate NaN, so a column containing NaN standardizes
to all-NaN; float division is fdivVal below.  String entries would raise
a TypeError in numpy; no modeled configuration standardizes a string
column, and such entries pass through untouched. -/
noncomputable def fdivVal (a b : ℝ) : Val :=
  if b = 0 then Val.nan else Val.num (a / b)

/-- Column-level standardization, see fdivVal. -/
noncomputable def normalizeCol (c : Col) : Col :=
  if c.any Val.isNan then c.map (fun _ => Val.nan)
  else
    c.map (fun v => match v with
      | .num x => fdivVal (x - mean (valNums c)) (std (valNums c))
      | v => v)

/-- Column-level label encoding (EncodeCategoricalFeature.apply /
Encoder.process_data): string entries are mapped to their sorted-vocabulary
code.  The modeled categorical columns are entirely string-valued;
non-string entries (on which the library would raise or apply its numeric
ordering) are mapped to NaN and are unreachable in the modeled runs. -/
def encodeCol (c : Col) : Col :=
  c.map (fun v => match v with
    | .str s => Val.num ((vocab (valStrs c)).indexOf s)
    | _ => Val.nan)

/-- Column-level fillna with a float fill value
(FillNaNFeature.apply / NanFiller.process_data with fill value -1). -/
def fillCol (c : Col) (v : ℝ) : Col :=
  c.map (fun e => match e with | .nan => Val.num v | e => e)

/-- The runtime errors the modeled runs can raise: pandas KeyError on a
missing column name. -/
inductive PErr where
  | keyError (name : String)
deriving DecidableEq

/-- Column read that raises KeyError when the name is absent, as
`df[name]` does. -/
def getColE (t : Table) (n : String) : Except PErr Col :=
  match getCol t n with
  | some c => .ok c
  | none => .error (.keyError n)

/-- A configured processing step of the step-based variants
(NormalizeFeature, EncodeCategoricalFeature, FillNaNFeature), bound to its
column name(s) and parameter. -/
inductive Step where
  | normalize (name : String)
  | encode (src dst : String)
  | fill (name : String) (v : ℝ)

/-- The source column name a step reads. -/
def stepSrc : Step → String
  | .normalize n => n
  | .encode src _ => src
  | .fill n _ => n

/-- The column name a step writes (normalize and fill write their source
column in place; encode writes its destination column). -/
def stepTarget : Step → String
  | .normalize n => n
  | .encode _ dst => dst
  | .fill n _ => n

/-- One step application, as each `apply` / `process` method does: read
the source column (KeyError if absent), then assign the transformed
column. -/
noncomputable def applyStep (s : Step) (t : Table) : Except PErr Table :=
  match s with
  | .normalize n => (getColE t n).map (fun c => setCol t n (normalizeCol c))
  | .encode src dst => (getColE t src).map (fun c => setCol t dst (encodeCol c))
  | .fill n v => (getColE t n).map (fun c => setCol t n (fillCol c v))

/-- The step-threading pipeline loop of open_close.process,
dependency_aversion.process_data, liskov_substitution.process_data and
single_responsibility.process_data: `for step in steps: df = step.apply(df)`,
each step receiving the accumulating frame. -/
noncomputable def processSteps (t : Table) (steps : List Step) : Except PErr Table :=
  steps.foldlM (fun acc s => applyStep s acc) t

/-- What gets persisted: df.to_parquet runs only after the whole loop has
succeeded, so a failed run writes nothing. -/
noncomputable def savedOutput (t : Table) (steps : List Step) : Option Table :=
  (processSteps t steps).toOption

/-- The three DataProcessor implementations of code_with_solid.py. -/
inductive Proc where
  | standardizer
  | encoder
  | nanFiller

/-- processor.process_data(df): each processor reads its hard-wired column
from the frame it is handed and returns a named series (the standardized
series keeps the name "feature_a", the filled series keeps "feature_c",
the encoder names its series "feature_b_encoded"). -/
noncomputable def procSeries (p : Proc) (t : Table) : Except PErr (String × Col) :=
  match p with
  | .standardizer => (getColE t "feature_a").map (fun c => ("feature_a", normalizeCol c))
  | .encoder => (getColE t "feature_b").map (fun c => ("feature_b_encoded", encodeCol c))
  | .nanFiller => (getColE t "feature_c").map (fun c => ("feature_c", fillCol c (-1)))

/-- code_with_solid.DataPipeline.process: for each processor,
`df = pd.concat([df, processor.process_data(df)], axis=1)` — the returned
series is appended as a new column (concat never overwrites), and the
processor reads from the accumulating frame. -/
noncomputable def DataPipeline.process (t : Table) (ps : List Proc) : Except PErr Table :=
  ps.foldlM (fun acc p => (procSeries p acc).map (fun s => acc ++ [s])) t

/-- single_responsibility_1.compose_df: zip the given column names with
the transformed series, building the output frame keyed by those names
(the series' own names are discarded). -/
def compose_df (args : List Col) (column_names : List String) : Table :=
  column_names.zip args

/-- single_responsibility_1.process: each transform is applied to a column
of the original loaded frame, and the results are assembled with
compose_df under the original column names. -/
noncomputable def processSR1 (t : Table) : Except PErr Table := do
  let ca ← getColE t "feature_a"
  let cb ← getColE t "feature_b"
  let cc ← getColE t "feature_c"
  pure (compose_df [normalizeCol ca, encodeCol cb, fillCol cc (-1)] (colNames t))

theorem lookup_eq_none_of_not_mem {t : Table} {n : String} (h : n ∉ colNames t) :
    t.lookup n = none := by
  induction t with
  | nil => rfl
  | cons p tl ih =>
    simp only [colNames, List.map_cons, List.mem_cons, not_or] at h
    rw [List.lookup_cons]
    rw [beq_eq_false_iff_ne.mpr h.1]
    exact ih h.2

theorem lookup_map_set {m n : String} {c : Col} (h : m ≠ n) (t : Table) :
    List.lookup m (t.map (fun p => if p.1 == n then (n, c) else p)) = List.lookup m t := by
  induction t with
  | nil => rfl
  | cons p tl ih =>
    rw [List.map_cons]
    by_cases hp : p.1 = n
    · rw [if_pos (beq_iff_eq.mpr hp)]
      rw [List.lookup_cons, List.lookup_cons]
      rw [beq_eq_false_iff_ne.mpr h, beq_eq_false_iff_ne.mpr (hp ▸ h)]
      exact ih
    · rw [if_neg (by simpa using hp)]
      rw [List.lookup_cons, List.lookup_cons]
      cases hmp : (m == p.1)
      · exact ih
      · rfl

theorem lookup_append_singleton {m n : String} {c : Col} (h : m ≠ n) (t : Table) :
    List.lookup m (t ++ [(n, c)]) = List.lookup m t := by
  induction t with
  | nil =>
    simp only [List.nil_append, List.lookup_cons, List.lookup_nil]
    rw [beq_eq_false_iff_ne.mpr h]
  | cons p tl ih =>
    rw [List.cons_append, List.lookup_cons, List.lookup_cons]
    cases hmp : (m == p.1)
    · exact ih
    · rfl

theorem getCol_setCol_ne (t : Table) (n m : String) (c : Col) (h : m ≠ n) :
    getCol (setCol t n c) m = getCol t m := by
  unfold setCol getCol
  split
  · exact lookup_map_set h t
  · exact lookup_append_singleton h t

theorem sum_map_div (l : List ℝ) (s : ℝ) :
    (l.map (fun x => x / s)).sum = l.sum / s := by
  induction l with
  | nil => simp
  | cons x tl ih => simp [ih, div_add_div_same]

theorem sum_map_sub (l : List ℝ) (a : ℝ) :
    (l.map (fun x => x - a)).sum = l.sum - l.length * a := by
  induction l with
  | nil => simp
  | cons x tl ih =>
    simp only [List.map_cons, List.sum_cons, ih, List.length_cons]
    push_cast
    ring

theorem var_nonneg (xs : List ℝ) : 0 ≤ var xs := by
  apply div_nonneg
  · apply List.sum_nonneg
    intro y hy
    obtain ⟨x, _, rfl⟩ := List.mem_map.mp hy
    positivity
  · positivity

theorem length_ne_zero_of_var_ne_zero {xs : List ℝ} (h : var xs ≠ 0) :
    (xs.length : ℝ) ≠ 0 := by
  intro hl
  cases xs with
  | nil => exact h (by simp [var])
  | cons x tl =>
    rw [List.length_cons] at hl
    push_cast at hl
    have : (0:ℝ) < (tl.length : ℝ) + 1 := by positivity
    linarith

theorem sum_eq_length_mul_mean {xs : List ℝ} (h : (xs.length : ℝ) ≠ 0) :
    xs.sum = xs.length * mean xs := by
  rw [mean, mul_div_cancel₀ _ h]

theorem mean_normalize {xs : List ℝ} (h : var xs ≠ 0) :
    mean (normalize_feature xs) = 0 := by
  have hl := length_ne_zero_of_var_ne_zero h
  have key : (xs.map (fun x => (x - mean xs) / std xs)).sum = 0 := by
    have hsplit : (xs.map (fun x => (x - mean xs) / std xs))
        = ((xs.map (fun x => x - mean xs)).map (fun y => y / std xs)) := by
      rw [List.map_map]; rfl
    rw [hsplit, sum_map_div, sum_map_sub, ← sum_eq_length_mul_mean hl]
    simp
  rw [mean, normalize_feature, key, zero_div]

theorem sumsq_eq_var_mul_length {xs : List ℝ} (h : (xs.length : ℝ) ≠ 0) :
    (xs.map (fun x => (x - mean xs) ^ 2)).sum = var xs * xs.length := by
  rw [var, div_mul_cancel₀ _ h]

theorem std_normalize {xs : List ℝ} (h : var xs ≠ 0) :
    std (normalize_feature xs) = 1 := by
  have hl := length_ne_zero_of_var_ne_zero h
  have hm := mean_normalize h
  have hs2 : std xs ^ 2 = var xs := Real.sq_sqrt (var_nonneg xs)
  have hvar : var (normalize_feature xs) = 1 := by
    rw [var, hm]
    have hlen : ((normalize_feature xs).length : ℝ) = (xs.length : ℝ) := by
      simp [normalize_feature]
    have hmap : ((normalize_feature xs).map (fun y => (y - 0) ^ 2)).sum
        = (xs.map (fun x => (x - mean xs) ^ 2)).sum / std xs ^ 2 := by
      rw [normalize_feature, List.map_map]
      have hcomp : ((fun y => (y - 0) ^ 2) ∘ fun x => (x - mean xs) / std xs)
          = fun x => ((x - mean xs) ^ 2) / std xs ^ 2 := by
        funext x
        simp [div_pow]
      rw [hcomp]
      have hcomp2 : (fun x => ((x - mean xs) ^ 2) / std xs ^ 2)
          = (fun y => y / std xs ^ 2) ∘ (fun x => (x - mean xs) ^ 2) := rfl
      rw [hcomp2, ← List.map_map, sum_map_div]
    rw [hmap, hlen, sumsq_eq_var_mul_length hl]
    rw [hs2]
    field_simp
  rw [std, hvar, Real.sqrt_one]

theorem mem_vocab {a : String} {l : List String} : a ∈ vocab l ↔ a ∈ l := by
  unfold vocab
  rw [(List.perm_insertionSort _ _).mem_iff, List.mem_dedup]

/-- C3: for the categorical column ["x", "y", "x", "z"], the encoding
transform assigns codes by sorted order of the distinct values
(vocabulary x = 0, y = 1, z = 2) and produces exactly [0, 1, 0, 2];
being a function of the column, re-running it on the same column yields
the same codes. -/
theorem c3_encode_sorted_codes : encode_feature ["x", "y", "x", "z"] = [0, 1, 0, 2] := by
  decide

/-- C4: the standardization transform maps row i of a numeric column to
(x_i - mean) / std, and whenever the population variance is nonzero the
standardized column has mean exactly 0 and population standard deviation
exactly 1 (in exact real arithmetic). -/
theorem c4_standardize_mean_std (xs : List ℝ) :
    (∀ i, i < xs.length →
        (normalize_feature xs).getD i 0 = (xs.getD i 0 - mean xs) / std xs)
    ∧ (var xs ≠ 0 →
        mean (normalize_feature xs) = 0 ∧ std (normalize_feature xs) = 1) := by
  constructor
  · intro i hi
    have hi2 : i < (normalize_feature xs).length := by
      simpa [normalize_feature] using hi
    rw [List.getD_eq_getElem _ _ hi2, List.getD_eq_getElem _ _ hi]
    simp [normalize_feature]
  · intro h
    exact ⟨mean_normalize h, std_normalize h⟩

/-- Witness for C4 at the concrete column [0, 2] (variance 1). -/
theorem c4_standardize_mean_std_witness :
    var [(0:ℝ), 2] ≠ 0
    ∧ mean (normalize_feature [(0:ℝ), 2]) = 0
    ∧ std (normalize_feature [(0:ℝ), 2]) = 1 := by
  have h : var [(0:ℝ), 2] ≠ 0 := by norm_num [var, mean]
  exact ⟨h, (c4_standardize_mean_std [(0:ℝ), 2]).2 h⟩

/-- C5: the fill transform preserves length, replaces every missing entry
by the fill value, passes every present entry through unchanged, and when
the fill value is itself non-missing the output has zero missing
entries. -/
theorem c5_fill_spec (c : List (Option ℚ)) (v : Option ℚ) :
    (fill_feature c v).length = c.length
    ∧ (∀ i, i < c.length →
        (fill_feature c v).getD i none = (c.getD i none).elim v some)
    ∧ (v.isSome = true → ∀ e ∈ fill_feature c v, e.isSome = true) := by
  refine ⟨by simp [fill_feature], ?_, ?_⟩
  · intro i hi
    induction c generalizing i with
    | nil => simp at hi
    | cons e tl ih =>
      cases i with
      | zero => cases e <;> rfl
      | succ j =>
        simp only [fill_feature, List.map_cons, List.getD_cons_succ]
        exact ih j (by simpa using hi)
  · intro hv e he
    rw [fill_feature, List.mem_map] at he
    obtain ⟨x, _, rfl⟩ := he
    cases x
    · exact hv
    · rfl

/-- Witness for C5 at the column [some 5, none] with fill value -1. -/
theorem c5_fill_spec_witness :
    (fill_feature [some (5:ℚ), none] (some (-1))).getD 1 none = some (-1)
    ∧ ∀ e ∈ fill_feature [some (5:ℚ), none] (some (-1)), e.isSome = true := by
  have h := c5_fill_spec [some (5:ℚ), none] (some (-1))
  refine ⟨?_, h.2.2 rfl⟩
  have h2 := h.2.1 1 (by norm_num)
  simpa using h2

/-- C6: the claim requires that standardizing a constant column either
fail with a DegenerateInputError or produce an all-zero column, and never
produce undefined values; the code does neither — on the constant column
[5, 5, 5] the standard deviation is 0 and every entry becomes the
non-finite float 0/0 (NaN, modeled as none), which is not the all-zero
column and is not an error. -/
theorem c6_constant_column_nan :
    standardizeFloat [5, 5, 5] = [none, none, none]
    ∧ ([none, none, none] : List (Option ℝ)) ≠ [some 0, some 0, some 0] := by
  constructor
  · have hv : var [(5:ℝ), 5, 5] = 0 := by norm_num [var, mean]
    have hs : std [(5:ℝ), 5, 5] = 0 := by rw [std, hv, Real.sqrt_zero]
    simp [standardizeFloat, fdivOpt, hs]
  · simp

/-- C7: encoding a categorical column and mapping the codes back through
the vocabulary built during that invocation reproduces the column exactly,
and on observed values the vocabulary is injective: equal values get equal
codes and distinct values get distinct codes. -/
theorem c7_encode_roundtrip_inj (l : List String) :
    (encode_feature l).map (fun c => (vocab l).getD c "") = l
    ∧ ∀ a ∈ l, ∀ b ∈ l, ((vocab l).indexOf a = (vocab l).indexOf b ↔ a = b) := by
  constructor
  · rw [encode_feature, List.map_map]
    have hpt : ∀ x ∈ l,
        ((fun c => (vocab l).getD c "") ∘ fun v => (vocab l).indexOf v) x = id x := by
      intro x hx
      have hmem : x ∈ vocab l := mem_vocab.mpr hx
      have hlt : (vocab l).indexOf x < (vocab l).length := List.indexOf_lt_length.mpr hmem
      simp only [Function.comp_apply, id_eq]
      rw [List.getD_eq_getElem _ _ hlt]
      exact List.indexOf_get (l := vocab l) hlt
    rw [List.map_congr_left hpt, List.map_id]
  · intro a ha b hb
    exact List.indexOf_inj (mem_vocab.mpr ha) (mem_vocab.mpr hb)

/-- Witness for C7 at the column ["x", "y", "x", "z"]. -/
theorem c7_encode_roundtrip_inj_witness :
    (encode_feature ["x", "y", "x", "z"]).map
        (fun c => (vocab ["x", "y", "x", "z"]).getD c "") = ["x", "y", "x", "z"]
    ∧ ((vocab ["x", "y", "x", "z"]).indexOf "x" = (vocab ["x", "y", "x", "z"]).indexOf "y"
        ↔ "x" = "y") := by
  have h := c7_encode_roundtrip_inj ["x", "y", "x", "z"]
  exact ⟨h.1, h.2 "x" (by decide) "y" (by decide)⟩

theorem applyStep_missing (s : Step) (t : Table) (h : stepSrc s ∉ colNames t) :
    applyStep s t = .error (.keyError (stepSrc s)) := by
  cases s with
  | normalize n =>
    have hn : getCol t n = none := lookup_eq_none_of_not_mem (by simpa [stepSrc] using h)
    simp only [applyStep, getColE, hn, stepSrc]
    rfl
  | encode src dst =>
    have hn : getCol t src = none := lookup_eq_none_of_not_mem (by simpa [stepSrc] using h)
    simp only [applyStep, getColE, hn, stepSrc]
    rfl
  | fill n v =>
    have hn : getCol t n = none := lookup_eq_none_of_not_mem (by simpa [stepSrc] using h)
    simp only [applyStep, getColE, hn, stepSrc]
    rfl

/-- C1, counterexample: in the step-threading pipelines each transform is
invoked on the accumulating frame, not the original loaded frame.  On the
table with feature_c = [NaN] and the configured transforms
[fill(feature_c, -1), fill(feature_c, -2)], the pipeline's output column
for the second transform is [-1.0] — the first fill already removed the
NaN — whereas the second transform applied to the original table alone
produces [-2.0]. -/
theorem c1_fold_not_map_counterexample :
    (processSteps [("feature_c", [Val.nan])]
        [Step.fill "feature_c" (-1), Step.fill "feature_c" (-2)]).toOption.bind
      (fun t => getCol t "feature_c") = some [Val.num (-1)]
    ∧ (applyStep (Step.fill "feature_c" (-2)) [("feature_c", [Val.nan])]).toOption.bind
      (fun t => getCol t "feature_c") = some [Val.num (-2)]
    ∧ ¬ (some [Val.num (-1)] = some [Val.num (-2)]) := by
  refine ⟨rfl, rfl, ?_⟩
  simp only [Option.some.injEq, List.cons.injEq, Val.num.injEq, and_true]
  intro hcontra
  norm_num at hcontra

/-- C1, amended: the pipeline threads the accumulating table through the
transforms; for the default configuration [normalize(feature_a),
encode(feature_b -> feature_b_encoded), fill(feature_c, v)] — whose steps
never read a column an earlier step wrote — the threading is harmless, and
on any table with columns feature_a, feature_b, feature_c each output
column equals the column its transform produces from the original loaded
table alone. -/
theorem c1_default_pipeline_reads_original (ca cb cc : Col) (v : ℝ) :
    processSteps [("feature_a", ca), ("feature_b", cb), ("feature_c", cc)]
      [Step.normalize "feature_a", Step.encode "feature_b" "feature_b_encoded",
       Step.fill "feature_c" v]
    = .ok [("feature_a", normalizeCol ca), ("feature_b", cb),
           ("feature_c", fillCol cc v), ("feature_b_encoded", encodeCol cb)] := rfl

/-- C2, counterexample: the pipeline does not validate column names
against the input table before running.  With the input table holding only
feature_b and the configuration [encode(feature_b -> feature_a),
normalize(feature_a)], the second transform references feature_a, which is
absent from the input table, yet the run succeeds (the first transform
creates the column) instead of failing with a missing-column error before
the first transform executes. -/
theorem c2_eager_validation_counterexample :
    "feature_a" ∉ colNames [("feature_b", [Val.str "x"])]
    ∧ (processSteps [("feature_b", [Val.str "x"])]
        [Step.encode "feature_b" "feature_a", Step.normalize "feature_a"]).isOk = true := by
  exact ⟨by decide, rfl⟩

/-- C2, amended: a transform that references a missing source column makes
the run fail with a KeyError at the point that transform executes — in
particular a run whose first transform's source column is absent from the
loaded table fails immediately with that KeyError — and a failed run
writes no output table, because saving happens only after every transform
has succeeded. -/
theorem c2_missing_column_lazy_failure (t : Table) (s : Step) (rest : List Step)
    (h : stepSrc s ∉ colNames t) :
    processSteps t (s :: rest) = .error (.keyError (stepSrc s))
    ∧ savedOutput t (s :: rest) = none := by
  have happ : applyStep s t = .error (.keyError (stepSrc s)) := applyStep_missing s t h
  constructor
  · rw [processSteps, List.foldlM_cons, happ]
    rfl
  · rw [savedOutput, processSteps, List.foldlM_cons, happ]
    rfl

/-- Witness for the amended C2: a fill step reading the absent column
feature_x fails with KeyError "feature_x". -/
theorem c2_missing_column_lazy_failure_witness :
    stepSrc (Step.fill "feature_x" 0) ∉ colNames [("feature_a", [Val.num 1])]
    ∧ processSteps [("feature_a", [Val.num 1])] [Step.fill "feature_x" 0]
      = .error (.keyError "feature_x") := by
  have h : stepSrc (Step.fill "feature_x" 0) ∉ colNames [("feature_a", [Val.num 1])] := by
    decide
  exact ⟨h, (c2_missing_column_lazy_failure _ _ _ h).1⟩

/-- C8, counterexample: the step transforms are not read-only with respect
to the input table — the fill step overwrites its declared source column
in place.  After FillNaNFeature.apply on the table with
feature_c = [NaN], the feature_c column of the resulting frame is [-1.0],
not the original [NaN]. -/
theorem c8_mutates_source_counterexample :
    applyStep (Step.fill "feature_c" (-1)) [("feature_c", [Val.nan])]
      = .ok [("feature_c", [Val.num (-1)])]
    ∧ getCol [("feature_c", [Val.num (-1)])] "feature_c"
      ≠ getCol [("feature_c", [Val.nan])] "feature_c" := by
  refine ⟨rfl, ?_⟩
  intro hcontra
  have h1 : getCol [("feature_c", [Val.num (-1)])] "feature_c" = some [Val.num (-1)] := rfl
  have h2 : getCol [("feature_c", [Val.nan])] "feature_c" = some [Val.nan] := rfl
  rw [h1, h2] at hcontra
  simp only [Option.some.injEq, List.cons.injEq, and_true] at hcontra
  exact Val.noConfusion hcontra

/-- C8, amended: each step writes exactly one column — its declared target
(normalize and fill overwrite their source column in place, encode writes
its destination column) — and every other column of the table is unchanged
by a successful step application. -/
theorem c8_frame_other_columns (s : Step) (t t2 : Table) (m : String)
    (hok : applyStep s t = .ok t2) (hm : m ≠ stepTarget s) :
    getCol t2 m = getCol t m := by
  cases s with
  | normalize n =>
    cases hg : getCol t n with
    | none =>
      rw [applyStep, getColE, hg] at hok
      simp [Except.map] at hok
    | some c =>
      rw [applyStep, getColE, hg] at hok
      simp only [Except.map, Except.ok.injEq] at hok
      rw [← hok]
      exact getCol_setCol_ne t n m _ (by simpa [stepTarget] using hm)
  | encode src dst =>
    cases hg : getCol t src with
    | none =>
      rw [applyStep, getColE, hg] at hok
      simp [Except.map] at hok
    | some c =>
      rw [applyStep, getColE, hg] at hok
      simp only [Except.map, Except.ok.injEq] at hok
      rw [← hok]
      exact getCol_setCol_ne t dst m _ (by simpa [stepTarget] using hm)
  | fill n v =>
    cases hg : getCol t n with
    | none =>
      rw [applyStep, getColE, hg] at hok
      simp [Except.map] at hok
    | some c =>
      rw [applyStep, getColE, hg] at hok
      simp only [Except.map, Except.ok.injEq] at hok
      rw [← hok]
      exact getCol_setCol_ne t n m _ (by simpa [stepTarget] using hm)

/-- Witness for the amended C8: filling feature_c leaves feature_a
untouched. -/
theorem c8_frame_other_columns_witness :
    getCol [("feature_a", [Val.num 1]), ("feature_c", [Val.num (-1)])] "feature_a"
      = getCol [("feature_a", [Val.num 1]), ("feature_c", [Val.nan])] "feature_a" :=
  c8_frame_other_columns (Step.fill "feature_c" (-1)) _ _ "feature_a" rfl (by decide)

/-- C9: with the default processors [Standardizer, Encoder, NanFiller],
DataPipeline.process appends the standardized series under the existing
name feature_a and the filled series under the existing name feature_c
(and the encoded series under feature_b_encoded), so the output frame's
column names are [feature_a, feature_b, feature_c, feature_a,
feature_b_encoded, feature_c] — the uniqueness invariant on column names
is violated. -/
theorem c9_duplicate_column_names (ca cb cc : Col) :
    DataPipeline.process [("feature_a", ca), ("feature_b", cb), ("feature_c", cc)]
      [Proc.standardizer, Proc.encoder, Proc.nanFiller]
    = .ok [("feature_a", ca), ("feature_b", cb), ("feature_c", cc),
           ("feature_a", normalizeCol ca), ("feature_b_encoded", encodeCol cb),
           ("feature_c", fillCol cc (-1))]
    ∧ ¬ (colNames [("feature_a", ca), ("feature_b", cb), ("feature_c", cc),
           ("feature_a", normalizeCol ca), ("feature_b_encoded", encodeCol cb),
           ("feature_c", fillCol cc (-1))]).Nodup := by
  refine ⟨rfl, ?_⟩
  show ¬ (["feature_a", "feature_b", "feature_c", "feature_a",
           "feature_b_encoded", "feature_c"] : List String).Nodup
  decide

/-- C10: in the single_responsibility_1 variant, a loaded table with
columns [feature_a, feature_b, feature_c] is processed into a table with
exactly those three column names, obtained by zipping the input's column
names with the transformed columns in order; the encoded column is stored
under the name feature_b and no column named feature_b_encoded exists. -/
theorem c10_sr1_original_names (ca cb cc : Col) :
    processSR1 [("feature_a", ca), ("feature_b", cb), ("feature_c", cc)]
      = .ok [("feature_a", normalizeCol ca), ("feature_b", encodeCol cb),
             ("feature_c", fillCol cc (-1))]
    ∧ colNames [("feature_a", normalizeCol ca), ("feature_b", encodeCol cb),
             ("feature_c", fillCol cc (-1))]
      = ["feature_a", "feature_b", "feature_c"]
    ∧ "feature_b_encoded" ∉ colNames [("feature_a", normalizeCol ca),
             ("feature_b", encodeCol cb), ("feature_c", fillCol cc (-1))] := by
  refine ⟨rfl, rfl, ?_⟩
  show "feature_b_encoded" ∉ ["feature_a", "feature_b", "feature_c"]
  decide
